import Mathlib

/-!
Shallow embedding of the math-lang interpreter (src/src/value.rs, set.rs,
environment.rs, ast.rs, interpreter.rs).

Modelling conventions:
* `BigInt` is `ℤ`, `BigRational` is `ℚ` (num's `BigRational` is kept reduced, as is
  Mathlib's `ℚ`), `Complex<BigRational>` is a pair of `ℚ` (re, im).
* `Rc<CanonSet>` appearing as a runtime value carries an allocation identifier
  (`Nat`) so that reference (pointer) equality is expressible; structural equality
  ignores the identifier, exactly as Rust's `PartialEq` for `Rc<CanonSet>`
  dereferences to the structural comparison.
* `panic!` in the interpreter is `RtError.interp msg`, `todo!()`/`unimplemented` is
  `RtError.nyi`, `unreachable!()` is `RtError.unreachable`, a panic raised inside
  the `num` library (e.g. `BigRational::new` with zero denominator) is
  `RtError.lib msg`, and `Option::unwrap` on `None` is `RtError.unwrapNone`.
  Quotes appearing inside the original panic messages are omitted.
* Mutual recursion between expression evaluation and function calls is bounded by
  an explicit `fuel` argument; `RtError.fuel` is the out-of-fuel marker (a model
  artifact, never produced by runs given sufficient fuel).
-/

namespace MathLang

/-- The primitive infinite sets of `set.rs` (`InfiniteSet`).  The live enum has
variants `Nat, Int, Real, Complex, Str`; `interpreter.rs` (`Interpreter::new`)
additionally references `InfiniteSet::Univ`, which is missing from the enum in
the snapshot, so `univ` is included here as the variant that caller requires. -/
inductive InfSet where
  | nat
  | int
  | real
  | complex
  | str
  | univ
deriving DecidableEq, Repr

/-- The operator token kinds relevant to expression evaluation
(`TokenKind::{Plus, Minus, Star, Slash, Caret}` of token.rs). -/
inductive Op where
  | plus
  | minus
  | star
  | slash
  | caret
deriving DecidableEq, Repr

/-- Runtime failure of an evaluation, see the module docstring for the mapping
from Rust failure forms. -/
inductive RtError where
  | interp (msg : String)
  | nyi
  | unreachable
  | lib (msg : String)
  | unwrapNone
  | fuel
deriving DecidableEq, Repr

/-- Result discipline for the embedded interpreter functions. -/
abbrev Res (α : Type) := Except RtError α

mutual

/-- Runtime values: the closed union over the `Val` implementations of value.rs
(`BigInt`, `BigRational`, `Complex<BigRational>`, `String`, `bool`, `Tuple`,
`Rc<CanonSet>`, `Func`).  A set value records the allocation id of its `Rc`. -/
inductive Value where
  | int (i : ℤ)
  | rat (q : ℚ)
  | cplx (re im : ℚ)
  | str (s : String)
  | bool (b : Bool)
  | tuple (elems : List Value)
  | setv (id : ℕ) (s : CanonSet)
  | func (f : FuncV)

/-- `CanonSet` of set.rs.  A finite set holds its elements (the Rust `HashSet`'s
contents; construction deduplicates through the hash/`compare` discipline). -/
inductive CanonSet where
  | finite (elems : List Value)
  | infinite (s : InfSet)
  | union (a b : CanonSet)
  | intersect (a b : CanonSet)
  | symDiff (a b : CanonSet)
  | exclusion (a b : CanonSet)
  | compl (a : CanonSet)

/-- `Func` of value.rs: captured environment, ordered parameter names, body
expression and codomain set. -/
inductive FuncV where
  | mk (env : EnvV) (arg_names : List String) (expr : Expr) (codomain : CanonSet)

/-- `Env` of environment.rs: a symbol map plus an optional parent scope.  The
`HashMap` is modelled as an association list with replace-on-insert. -/
inductive EnvV where
  | mk (symbols : List (String × SymStore)) (parent : Option EnvV)

/-- `SymStore` of environment.rs. -/
inductive SymStore where
  | value (v : Value)
  | type (s : CanonSet)
  | funcType (args : List CanonSet) (codomain : CanonSet)

/-- The expression shapes of ast.rs that the evaluator dispatches on
(statement-level shapes `Assign`/`TypedAssign`/`TypeExpr`/`FuncTypeExpr` are
destructured by `execute_stmt` before expression evaluation and are not part of
the evaluated expression language). -/
inductive Expr where
  | literal (v : Value)
  | symbol (n : String)
  | group (e : Expr)
  | unary (op : Op) (e : Expr)
  | binary (l : Expr) (op : Op) (r : Expr)
  | call (f : Expr) (args : List (Option Expr))
  | funcLit (params : List String) (body : Expr)
  | tupleE (es : List Expr)
  | matrix (rows : List (List Expr))
  | setE (es : List Expr)

end

namespace FuncV

def env : FuncV → EnvV
  | .mk e _ _ _ => e

def arg_names : FuncV → List String
  | .mk _ a _ _ => a

def expr : FuncV → Expr
  | .mk _ _ b _ => b

def codomain : FuncV → CanonSet
  | .mk _ _ _ c => c

/-- `Func::arity` of value.rs. -/
def arity (f : FuncV) : ℕ := f.arg_names.length

end FuncV

namespace EnvV

def symbols : EnvV → List (String × SymStore)
  | .mk s _ => s

def parent : EnvV → Option EnvV
  | .mk _ p => p

end EnvV

mutual

/-- `Val::compare` of value.rs, dispatching on the dynamic kinds of both values:
numbers compare after promotion to the widest kind; `bool` compares by `&&` (the
literal source text `*self && *other_bool`); tuples compare pointwise; set values
compare structurally through the `Rc` (allocation ids are irrelevant to `==`);
`Func::compare` returns `true` for any other function (marked `// todo` in the
source); all cross-kind combinations outside the numeric tower are `false`. -/
def Value.compare : Value → Value → Bool
  | .int a, .int b => a = b
  | .int a, .rat q => (a : ℚ) = q
  | .int a, .cplx re im => im = 0 && re = (a : ℚ)
  | .int _, _ => false
  | .rat q, .rat r => q = r
  | .rat q, .int b => q = (b : ℚ)
  | .rat q, .cplx re im => im = 0 && re = q
  | .rat _, _ => false
  | .cplx re im, .cplx re2 im2 => re = re2 && im = im2
  | .cplx re im, .rat q => im = 0 && re = q
  | .cplx re im, .int b => im = 0 && re = (b : ℚ)
  | .cplx _ _, _ => false
  | .str a, .str b => a = b
  | .str _, _ => false
  | .bool a, .bool b => a && b
  | .bool _, _ => false
  | .tuple xs, .tuple ys => Value.listCompare xs ys
  | .tuple _, _ => false
  | .setv _ s, .setv _ t => CanonSet.structEq s t
  | .setv _ _, _ => false
  | .func _, .func _ => true
  | .func _, _ => false

/-- `Vec<Box<dyn Val>> == Vec<Box<dyn Val>>`: pointwise `compare` (used by
`Tuple::compare`). -/
def Value.listCompare : List Value → List Value → Bool
  | [], [] => true
  | x :: xs, y :: ys => Value.compare x y && Value.listCompare xs ys
  | _, _ => false

/-- `HashSet<Box<dyn Val>>::contains`: a bucket lookup followed by `compare`,
modelled as a linear scan with `compare` (hashing agrees with `compare` on the
kinds the programs store in sets; function elements make the Rust hasher panic
and are outside every claim). -/
def Value.mem : Value → List Value → Bool
  | _, [] => false
  | v, x :: xs => Value.compare v x || Value.mem v xs

/-- Derived `PartialEq` for `CanonSet` (used by `Rc<CanonSet> == Rc<CanonSet>`
and by `SetPool`'s `HashSet`): variant-wise structural equality; two
`FiniteSet`s are equal when they have the same length and each element of one
is `contains`-matched in the other (`HashSet` set-equality). -/
def CanonSet.structEq : CanonSet → CanonSet → Bool
  | .finite xs, .finite ys => xs.length = ys.length && Value.subsetCompare xs ys
  | .infinite a, .infinite b => a = b
  | .union a b, .union c d => CanonSet.structEq a c && CanonSet.structEq b d
  | .intersect a b, .intersect c d => CanonSet.structEq a c && CanonSet.structEq b d
  | .symDiff a b, .symDiff c d => CanonSet.structEq a c && CanonSet.structEq b d
  | .exclusion a b, .exclusion c d => CanonSet.structEq a c && CanonSet.structEq b d
  | .compl a, .compl b => CanonSet.structEq a b
  | _, _ => false

/-- `self.iter().all(|k| other.contains(k))` over the finite set elements. -/
def Value.subsetCompare : List Value → List Value → Bool
  | [], _ => true
  | x :: xs, ys => Value.mem x ys && Value.subsetCompare xs ys

end

/-- `HashSet<Box<dyn Val>>::insert`: keeps the existing element when an equal one
(by hash + `compare`) is present, otherwise adds the new element. -/
def Value.setInsert (xs : List Value) (v : Value) : List Value :=
  if Value.mem v xs then xs else xs ++ [v]

/-- The data a value feeds to the hasher (`Val::hash_val` of value.rs).  Two
values produce equal hashes whenever they feed equal data (the hasher is
deterministic), which is what every hash-agreement statement needs.  Numbers
hash by first promoting to `Complex<BigRational>`; sets hash structurally by
their canonical form; `Func`'s `Hash` is `todo!()` — `none` models the panic. -/
inductive HashForm where
  | cplx (re im : ℚ)
  | str (s : String)
  | bool (b : Bool)
  | tuple (l : List HashForm)
  | set (s : CanonSet)

mutual

/-- `Val::hash_val`: `BigInt` and `BigRational` hash as their `Complex` promotion,
`Complex` hashes as itself, strings/bools hash their contents, tuples hash their
element sequence, set values hash the canonical set structurally. -/
def Value.hash_val : Value → Option HashForm
  | .int i => some (.cplx (i : ℚ) 0)
  | .rat q => some (.cplx q 0)
  | .cplx re im => some (.cplx re im)
  | .str s => some (.str s)
  | .bool b => some (.bool b)
  | .tuple xs => (Value.hashList xs).map HashForm.tuple
  | .setv _ s => some (.set s)
  | .func _ => none

/-- Elementwise hashing of a tuple's contents. -/
def Value.hashList : List Value → Option (List HashForm)
  | [] => some []
  | x :: xs =>
    match Value.hash_val x, Value.hashList xs with
    | some h, some hs => some (h :: hs)
    | _, _ => none

end

/-- `HashMap::insert` on the association-list model: replaces the entry when the
key is present, otherwise appends. -/
def scopeInsert (k : String) (v : SymStore) (l : List (String × SymStore)) :
    List (String × SymStore) :=
  if l.any (fun p => p.1 = k) then l.map (fun p => if p.1 = k then (k, v) else p)
  else l ++ [(k, v)]

/-- `Env::get` of environment.rs: look up in the current scope's map, falling
through to the parent chain on a miss. -/
def EnvV.get : EnvV → String → Option SymStore
  | .mk syms p, n =>
    match syms.find? (fun q => q.1 = n) with
    | some q => some q.2
    | none =>
      match p with
      | some env => env.get n
      | none => none

/-- `Env::get_set` of environment.rs: returns the current scope's binding only
when it is a `Value` holding an `Rc<CanonSet>`; every other outcome (missing,
non-value, non-set value) falls through to the parent chain. -/
def EnvV.get_set : EnvV → String → Option CanonSet
  | .mk syms p, n =>
    match syms.find? (fun q => q.1 = n) with
    | some (_, .value (.setv _ s)) => some s
    | _ =>
      match p with
      | some env => env.get_set n
      | none => none

/-- `Env::contains_key`: the current scope's map only. -/
def EnvV.contains_key (env : EnvV) (n : String) : Bool :=
  env.symbols.any (fun p => p.1 = n)

/-- `Env::is_sym_assigned` of environment.rs: `true` exactly when the *current*
scope's map holds a `SymStore::Value` for the name — the parent chain is not
consulted. -/
def EnvV.is_sym_assigned (env : EnvV) (n : String) : Bool :=
  match env.symbols.find? (fun q => q.1 = n) with
  | some (_, .value _) => true
  | _ => false

/-- `Env::insert_sym`: writes a `Value` entry into the current scope (the
source's special case re-boxing an `Rc<CanonSet>` clones the `Rc`, which is the
identity on the modelled value). -/
def EnvV.insert_sym (env : EnvV) (n : String) (v : Value) : EnvV :=
  .mk (scopeInsert n (.value v) env.symbols) env.parent

/-- `Env::insert_sym_type`: writes a `Type` entry into the current scope. -/
def EnvV.insert_sym_type (env : EnvV) (n : String) (s : CanonSet) : EnvV :=
  .mk (scopeInsert n (.type s) env.symbols) env.parent

/-- `Env::insert_sym_func_type`: writes a `FuncType` entry into the current scope. -/
def EnvV.insert_sym_func_type (env : EnvV) (n : String) (args : List CanonSet)
    (codomain : CanonSet) : EnvV :=
  .mk (scopeInsert n (.funcType args codomain) env.symbols) env.parent

/-- `InfiniteSet::name` of set.rs (`Univ` rendered after the symbol
`Interpreter::new` binds it to). -/
def InfSet.name : InfSet → String
  | .nat => "Nat"
  | .int => "Int"
  | .real => "Real"
  | .complex => "Complex"
  | .str => "Str"
  | .univ => "Univ"

/-- `Op` lexemes (token.rs `Token::lexeme`). -/
def Op.lexeme : Op → String
  | .plus => "+"
  | .minus => "-"
  | .star => "*"
  | .slash => "/"
  | .caret => "^"

mutual

/-- `Display` for values (`format!("{self}")`, i.e. `Val::display`):
`BigInt` renders in decimal, `BigRational` as `num/den` (plain `num` when the
denominator is 1), `Complex` as `re+imi`/`re-imi`, tuples as a bracketed
comma-separated list, sets by their `CanonSet` rendering, functions as
`params -> body`. -/
def Value.display : Value → String
  | .int i => toString i
  | .rat q => if q.den = 1 then toString q.num else toString q.num ++ "/" ++ toString q.den
  | .cplx re im =>
    (if re.den = 1 then toString re.num else toString re.num ++ "/" ++ toString re.den) ++
      (if im < 0 then "-" ++ (if im.den = 1 then toString (-im).num
          else toString (-im).num ++ "/" ++ toString (-im).den)
        else "+" ++ (if im.den = 1 then toString im.num
          else toString im.num ++ "/" ++ toString im.den)) ++ "i"
  | .str s => s
  | .bool b => if b then "true" else "false"
  | .tuple xs => "[" ++ String.intercalate ", " (Value.displayList xs) ++ "]"
  | .setv _ s => CanonSet.display s
  | .func (.mk _ args body _) =>
    (match args with
      | [a] => a ++ " -> "
      | l => "(" ++ String.intercalate ", " l ++ ") -> ") ++ Expr.display body

def Value.displayList : List Value → List String
  | [] => []
  | x :: xs => Value.display x :: Value.displayList xs

/-- `Display` for `CanonSet` (set.rs). -/
def CanonSet.display : CanonSet → String
  | .finite xs => "\x7b" ++ String.intercalate ", " (Value.displayList xs) ++ "\x7d"
  | .infinite s => s.name
  | .union a b => CanonSet.display a ++ " | " ++ CanonSet.display b
  | .intersect a b => CanonSet.display a ++ " & " ++ CanonSet.display b
  | .symDiff a b => CanonSet.display a ++ " ~ " ++ CanonSet.display b
  | .exclusion a b => CanonSet.display a ++ " \\ " ++ CanonSet.display b
  | .compl a => "~" ++ CanonSet.display a

/-- `Display` for `dyn Expr` (ast.rs); tuple/matrix/set literals concatenate
their element renderings exactly as the source's loops do. -/
def Expr.display : Expr → String
  | .literal v => Value.display v
  | .symbol n => n
  | .group e => "(" ++ Expr.display e ++ ")"
  | .unary op e => op.lexeme ++ Expr.display e
  | .binary l op r => Expr.display l ++ " " ++ op.lexeme ++ " " ++ Expr.display r
  | .call f args => Expr.display f ++ "(" ++ String.intercalate ", " (Expr.displayArgs args) ++ ")"
  | .funcLit params body =>
    (match params with
      | [a] => a ++ " -> "
      | l => "(" ++ String.intercalate ", " l ++ ") -> ") ++ Expr.display body
  | .tupleE es => "[" ++ String.join (Expr.displayList es) ++ "]"
  | .matrix rows => "[ " ++ String.join (Expr.displayRows rows) ++ "]"
  | .setE es => "\x7b" ++ String.join (Expr.displayList es) ++ "\x7d"

def Expr.displayList : List Expr → List String
  | [] => []
  | e :: es => Expr.display e :: Expr.displayList es

def Expr.displayArgs : List (Option Expr) → List String
  | [] => []
  | some e :: es => Expr.display e :: Expr.displayArgs es
  | none :: es => "" :: Expr.displayArgs es

def Expr.displayRows : List (List Expr) → List String
  | [] => []
  | r :: rs => String.join (Expr.displayList r) :: Expr.displayRows rs

end

/-- Modelled from the spec: the body of `InfiniteSet::contains` in src/set.rs is
a `todo!()` placeholder (and the `Univ` variant the interpreter requires is
missing from the enum), so the membership predicates for the infinite primitive
sets are taken from the spec's words — Naturals are the non-negative integral
numbers (including integer-valued rationals and complexes with zero imaginary
part), Integers any integral number, Reals any number with zero imaginary part,
Complexes any number, Strings the Text values, Universe everything. -/
def InfSet.contains : InfSet → Value → Bool
  | .univ, _ => true
  | .nat, v =>
    match v with
    | .int i => decide (0 ≤ i)
    | .rat q => decide (q.den = 1 ∧ 0 ≤ q)
    | .cplx re im => decide (im = 0 ∧ re.den = 1 ∧ 0 ≤ re)
    | _ => false
  | .int, v =>
    match v with
    | .int _ => true
    | .rat q => decide (q.den = 1)
    | .cplx re im => decide (im = 0 ∧ re.den = 1)
    | _ => false
  | .real, v =>
    match v with
    | .int _ => true
    | .rat _ => true
    | .cplx _ im => decide (im = 0)
    | _ => false
  | .complex, v =>
    match v with
    | .int _ => true
    | .rat _ => true
    | .cplx _ _ => true
    | _ => false
  | .str, v =>
    match v with
    | .str _ => true
    | _ => false

/-- `CanonSet::contains` of set.rs: finite sets test by element `compare`
(through the `HashSet`), infinite primitives by the spec-modelled predicates
(`InfSet.contains` above; the live body is `todo!()`), and the combinator
variants are `todo!()` in the source — `RtError.nyi`. -/
def CanonSet.contains : CanonSet → Value → Res Bool
  | .finite xs, v => .ok (Value.mem v xs)
  | .infinite s, v => .ok (s.contains v)
  | _, _ => .error .nyi

/-- `bool as u8`, the numeric image {0,1} of a boolean. -/
def boolInt (b : Bool) : ℤ := if b then 1 else 0

/-- `bool as u32`, used as an exponent. -/
def boolNat (b : Bool) : ℕ := if b then 1 else 0

/-- `Val::is_num`: true for the three number kinds only (`bool` keeps the
default `false`). -/
def Value.is_num : Value → Bool
  | .int _ => true
  | .rat _ => true
  | .cplx _ _ => true
  | _ => false

/-- `Val::is_str`. -/
def Value.is_str : Value → Bool
  | .str _ => true
  | _ => false

/-- `Interpreter::execute_literal`: returns the carried value for the five
literal kinds the dispatch handles; any other kind hits the `todo!()`. -/
def execute_literal : Value → Res Value
  | .int i => .ok (.int i)
  | .rat q => .ok (.rat q)
  | .cplx re im => .ok (.cplx re im)
  | .str s => .ok (.str s)
  | .bool b => .ok (.bool b)
  | _ => .error .nyi

/-- `Interpreter::execute_neg`: numeric negation; a boolean operand is returned
unchanged (the source builds `Box::new(bool)` from the operand). -/
def execute_neg : Value → Res Value
  | .int i => .ok (.int (-i))
  | .rat q => .ok (.rat (-q))
  | .cplx re im => .ok (.cplx (-re) (-im))
  | .bool b => .ok (.bool b)
  | _ => .error (.interp "Cannot apply unary operator -")

/-- `Interpreter::execute_sum`: a `String` on either side concatenates with the
other operand's rendering; numbers add after promotion; a boolean is `0`/`1`
against a number but two booleans XOR (`*l_bool ^ *r_bool`). -/
def execute_sum : Value → Value → Res Value
  | .str a, r => .ok (.str (a ++ r.display))
  | l, .str b => .ok (.str (l.display ++ b))
  | .int a, .int b => .ok (.int (a + b))
  | .int a, .rat q => .ok (.rat ((a : ℚ) + q))
  | .int a, .cplx re im => .ok (.cplx ((a : ℚ) + re) im)
  | .int a, .bool b => .ok (.int (a + boolInt b))
  | .int _, _ => .error (.interp "Cannot apply binary operator +")
  | .rat q, .int b => .ok (.rat (q + (b : ℚ)))
  | .rat q, .rat r => .ok (.rat (q + r))
  | .rat q, .cplx re im => .ok (.cplx (q + re) im)
  | .rat q, .bool b => .ok (.rat (q + (boolInt b : ℚ)))
  | .rat _, _ => .error (.interp "Cannot apply binary operator +")
  | .cplx re im, .int b => .ok (.cplx (re + (b : ℚ)) im)
  | .cplx re im, .rat r => .ok (.cplx (re + r) im)
  | .cplx re im, .cplx re2 im2 => .ok (.cplx (re + re2) (im + im2))
  | .cplx re im, .bool b => .ok (.cplx (re + (boolInt b : ℚ)) im)
  | .cplx _ _, _ => .error (.interp "Cannot apply binary operator +")
  | .bool a, .int b => .ok (.int (boolInt a + b))
  | .bool a, .rat r => .ok (.rat ((boolInt a : ℚ) + r))
  | .bool a, .cplx re im => .ok (.cplx ((boolInt a : ℚ) + re) im)
  | .bool a, .bool b => .ok (.bool (xor a b))
  | .bool _, _ => .error (.interp "Cannot apply binary operator +")
  | _, _ => .error (.interp "Cannot apply binary operator +")

/-- `Interpreter::execute_diff`: strings are rejected; two numbers subtract as
`left + (-right)`; every other combination (booleans included) is the trailing
`todo!()`. -/
def execute_diff (l r : Value) : Res Value :=
  match l, r with
  | .str _, _ => .error (.interp "Cannot subtract from a string")
  | _, .str _ => .error (.interp "Cannot subtract a string")
  | _, _ =>
    if l.is_num && r.is_num then
      match execute_neg r with
      | .ok nr => execute_sum l nr
      | .error e => .error e
    else .error .nyi

/-- `Interpreter::execute_prod`: a string on the left is the `todo!()`
(planned repetition), a string on the right is rejected; numbers multiply after
promotion; a boolean is `0`/`1` against a number but two booleans AND
(`*l_bool & *r_bool`). -/
def execute_prod : Value → Value → Res Value
  | .str _, _ => .error .nyi
  | l, r =>
    match l, r with
    | _, .str _ => .error (.interp "Cannot multiply by a string")
    | .int a, .int b => .ok (.int (a * b))
    | .int a, .rat q => .ok (.rat ((a : ℚ) * q))
    | .int a, .cplx re im => .ok (.cplx ((a : ℚ) * re) ((a : ℚ) * im))
    | .int a, .bool b => .ok (.int (a * boolInt b))
    | .int _, _ => .error (.interp "Cannot apply binary operator *")
    | .rat q, .int b => .ok (.rat (q * (b : ℚ)))
    | .rat q, .rat r => .ok (.rat (q * r))
    | .rat q, .cplx re im => .ok (.cplx (q * re) (q * im))
    | .rat q, .bool b => .ok (.rat (q * (boolInt b : ℚ)))
    | .rat _, _ => .error (.interp "Cannot apply binary operator *")
    | .cplx re im, .int b => .ok (.cplx (re * (b : ℚ)) (im * (b : ℚ)))
    | .cplx re im, .rat r => .ok (.cplx (re * r) (im * r))
    | .cplx re im, .cplx re2 im2 =>
      .ok (.cplx (re * re2 - im * im2) (re * im2 + im * re2))
    | .cplx re im, .bool b => .ok (.cplx (re * (boolInt b : ℚ)) (im * (boolInt b : ℚ)))
    | .cplx _ _, _ => .error (.interp "Cannot apply binary operator *")
    | .bool a, .int b => .ok (.int (boolInt a * b))
    | .bool a, .rat r => .ok (.rat ((boolInt a : ℚ) * r))
    | .bool a, .cplx re im => .ok (.cplx ((boolInt a : ℚ) * re) ((boolInt a : ℚ) * im))
    | .bool a, .bool b => .ok (.bool (a && b))
    | .bool _, _ => .error (.interp "Cannot apply binary operator *")
    | _, _ => .error (.interp "Cannot apply binary operator *")

/-- Complex division `(a+bi)/(c+di)` over the rationals, as `num`'s
`Complex<BigRational>` division computes it (via the norm square). -/
def cplxDiv (a b c d : ℚ) : Value :=
  .cplx ((a * c + b * d) / (c ^ 2 + d ^ 2)) ((b * c - a * d) / (c ^ 2 + d ^ 2))

/-- `Interpreter::execute_quot`: text is rejected; `BigInt / BigInt` builds
`BigRational::new(l, r)` with **no** zero check in the interpreter — a zero
denominator reaches the `num` library's constructor assertion (`RtError.lib`),
not an interpreter error branch; the other zero divisors likewise panic inside
`num`'s division; dividing *by* a boolean is rejected, as is a boolean
dividend. -/
def execute_quot (l r : Value) : Res Value :=
  if l.is_str || r.is_str then .error (.interp "Cannot apply binary operator / to text")
  else
    match l, r with
    | .int a, .int b =>
      if b = 0 then .error (.lib "denominator == 0") else .ok (.rat ((a : ℚ) / (b : ℚ)))
    | .int a, .rat q =>
      if q = 0 then .error (.lib "denominator == 0") else .ok (.rat ((a : ℚ) / q))
    | .int a, .cplx re im =>
      if re = 0 ∧ im = 0 then .error (.lib "denominator == 0")
      else .ok (cplxDiv (a : ℚ) 0 re im)
    | .int _, .bool _ => .error (.interp "Cannot divide by a boolean")
    | .int _, _ => .error (.interp "Cannot apply binary operator /")
    | .rat q, .int b =>
      if b = 0 then .error (.lib "denominator == 0") else .ok (.rat (q / (b : ℚ)))
    | .rat q, .rat r =>
      if r = 0 then .error (.lib "denominator == 0") else .ok (.rat (q / r))
    | .rat q, .cplx re im =>
      if re = 0 ∧ im = 0 then .error (.lib "denominator == 0")
      else .ok (cplxDiv q 0 re im)
    | .rat _, .bool _ => .error (.interp "Cannot divide by a boolean")
    | .rat _, _ => .error (.interp "Cannot apply binary operator /")
    | .cplx re im, .int b =>
      if b = 0 then .error (.lib "denominator == 0")
      else .ok (cplxDiv re im (b : ℚ) 0)
    | .cplx re im, .rat r =>
      if r = 0 then .error (.lib "denominator == 0")
      else .ok (cplxDiv re im r 0)
    | .cplx re im, .cplx re2 im2 =>
      if re2 = 0 ∧ im2 = 0 then .error (.lib "denominator == 0")
      else .ok (cplxDiv re im re2 im2)
    | .cplx _ _, .bool _ => .error (.interp "Cannot divide by a boolean")
    | .cplx _ _, _ => .error (.interp "Cannot apply binary operator /")
    | .bool _, _ => .error (.interp "Cannot use division with booleans")
    | _, _ => .error (.interp "Cannot apply binary operator /")

/-- The `BigInt ^ BigInt` branch of `Interpreter::execute_power`.  The exponent
is materialised through `to_u32_digits`: a magnitude of at least `2^32` needs
more than one digit.  `0^0` and a zero base under a negative exponent are
errors; base `1` under a negative exponent is `1`; an overflowing *negative*
exponent is approximated by `0` (the source comment: approximate with
`pow=-inf`, aka `result=0`); otherwise a negative exponent yields
`BigRational::new(1, l^mag)`. -/
def powIntInt (l e : ℤ) : Res Value :=
  if e = 0 then
    if l = 0 then .error (.interp "Cannot raise 0 to the power of 0")
    else .ok (.int 1)
  else if 0 ≤ e then
    if 2 ^ 32 ≤ e.natAbs then .error (.interp "Exponent is too large to compute")
    else .ok (.int (l ^ e.natAbs))
  else
    if l = 0 then .error (.interp "Base of negative exponent cannot be 0")
    else if l = 1 then .ok (.int 1)
    else if 2 ^ 32 ≤ e.natAbs then .ok (.int 0)
    else .ok (.rat (1 / (l : ℚ) ^ e.natAbs))

/-- The `BigRational ^ BigInt` branch of `Interpreter::execute_power`: a case
split on the base's position relative to `-1`, `0` and `1`; in each region an
overflowing exponent either errors eagerly (when the true result would grow) or
is approximated by `0` (when it would shrink); base exactly `-1` alternates by
the exponent's parity. -/
def powRatInt (l : ℚ) (e : ℤ) : Res Value :=
  if e = 0 then
    if l = 0 then .error (.interp "Cannot raise 0 to the power of 0")
    else .ok (.int 1)
  else
    let m := e.natAbs
    let big : Bool := 2 ^ 32 ≤ m
    if 1 ≤ l then
      if 0 ≤ e then
        if big then .error (.interp "Exponent is too large to compute")
        else .ok (.rat (l ^ m))
      else
        if big then .ok (.int 0) else .ok (.rat (l ^ m)⁻¹)
    else if 0 < l then
      if 0 ≤ e then
        if big then .ok (.int 0) else .ok (.rat (l ^ m))
      else
        if big then .error (.interp "Exponent is too large to compute")
        else .ok (.rat (l ^ m)⁻¹)
    else if l = 0 then
      if 0 ≤ e then
        if big then .ok (.int 0) else .ok (.rat (l ^ m))
      else .error (.interp "Base of negative exponent cannot be 0")
    else if -1 < l then
      if 0 ≤ e then
        if big then .ok (.int 0) else .ok (.rat (l ^ m))
      else
        if big then .error (.interp "Exponent too large to compute")
        else .ok (.rat (l ^ m)⁻¹)
    else if l = -1 then
      if e % 2 = 0 then .ok (.int 1) else .ok (.int (-1))
    else
      if 0 ≤ e then
        if big then .error (.interp "Exponent too large to compute")
        else .ok (.rat (l ^ m))
      else
        if big then .ok (.int 0) else .ok (.rat (l ^ m)⁻¹)

/-- `Interpreter::execute_power`.  A set base consults `InfiniteSet::Nat`
membership and is unfinished either way (`todo!()` on the hit, a panic on the
miss); text is rejected; integer and rational bases dispatch on the exponent
kind (rational and complex exponents are `todo!()`); a boolean exponent is
`0`/`1`; every sub-case of a complex base is `todo!()`; a boolean base panics
(with the source's copy-pasted booleans/division message, as does the final
fallthrough with its `'/'` message). -/
def execute_power (l r : Value) : Res Value :=
  match l with
  | .setv _ _ => if InfSet.nat.contains r then .error .nyi
      else .error (.interp "is not in Nat")
  | _ =>
    if l.is_str || r.is_str then .error (.interp "Cannot apply binary operator ^ to text")
    else
      match l, r with
      | .int a, .int e => powIntInt a e
      | .int _, .rat _ => .error .nyi
      | .int _, .cplx _ _ => .error .nyi
      | .int a, .bool b => .ok (.int (a ^ boolNat b))
      | .int _, _ => .error (.interp "Cannot apply binary operator ^")
      | .rat q, .int e => powRatInt q e
      | .rat _, .rat _ => .error .nyi
      | .rat _, .cplx _ _ => .error .nyi
      | .rat q, .bool b => .ok (.rat (q ^ boolNat b))
      | .rat _, _ => .error (.interp "Cannot apply binary operator ^")
      | .cplx _ _, .int _ => .error .nyi
      | .cplx _ _, .rat _ => .error .nyi
      | .cplx _ _, .cplx _ _ => .error .nyi
      | .cplx _ _, .bool _ => .error .nyi
      | .cplx _ _, _ => .error (.interp "Cannot apply binary operator ^")
      | .bool _, _ => .error (.interp "Cannot use division with booleans")
      | _, _ => .error (.interp "Cannot apply binary operator /")

mutual

/-- `Interpreter::substitute_symbols` of interpreter.rs: renames symbol
occurrences, `find_args[i] ↦ replace_with[i]` (first match wins, and the
source's contract is `find_args.len() == replace_with.len()`, here realised by
walking the zipped pairs).  A nested function literal filters out of the find
list every name its own parameter list rebinds before descending; set literals
are the source's `todo!()`. -/
def substitute_symbols : Expr → List String → List String → Res Expr
  | .literal v, _, _ => .ok (.literal v)
  | .symbol n, find, repl =>
    match (find.zip repl).find? (fun p => p.1 = n) with
    | some p => .ok (.symbol p.2)
    | none => .ok (.symbol n)
  | .group e, find, repl =>
    match substitute_symbols e find repl with
    | .ok e2 => .ok (.group e2)
    | .error err => .error err
  | .unary op e, find, repl =>
    match substitute_symbols e find repl with
    | .ok e2 => .ok (.unary op e2)
    | .error err => .error err
  | .binary l op r, find, repl =>
    match substitute_symbols l find repl, substitute_symbols r find repl with
    | .ok l2, .ok r2 => .ok (.binary l2 op r2)
    | .error err, _ => .error err
    | _, .error err => .error err
  | .call f args, find, repl =>
    match substitute_symbols f find repl, subsArgs args find repl with
    | .ok f2, .ok args2 => .ok (.call f2 args2)
    | .error err, _ => .error err
    | _, .error err => .error err
  | .funcLit params inner, find, repl =>
    match substitute_symbols inner
        (((find.zip repl).filter (fun p => ¬ params.contains p.1)).map Prod.fst)
        (((find.zip repl).filter (fun p => ¬ params.contains p.1)).map Prod.snd) with
    | .ok inner2 => .ok (.funcLit params inner2)
    | .error err => .error err
  | .tupleE es, find, repl =>
    match subsList es find repl with
    | .ok es2 => .ok (.tupleE es2)
    | .error err => .error err
  | .matrix rows, find, repl =>
    match subsRows rows find repl with
    | .ok rows2 => .ok (.matrix rows2)
    | .error err => .error err
  | .setE _, _, _ => .error .nyi

def subsList : List Expr → List String → List String → Res (List Expr)
  | [], _, _ => .ok []
  | e :: es, find, repl =>
    match substitute_symbols e find repl, subsList es find repl with
    | .ok e2, .ok es2 => .ok (e2 :: es2)
    | .error err, _ => .error err
    | _, .error err => .error err

def subsArgs : List (Option Expr) → List String → List String → Res (List (Option Expr))
  | [], _, _ => .ok []
  | none :: es, find, repl =>
    match subsArgs es find repl with
    | .ok es2 => .ok (none :: es2)
    | .error err => .error err
  | some e :: es, find, repl =>
    match substitute_symbols e find repl, subsArgs es find repl with
    | .ok e2, .ok es2 => .ok (some e2 :: es2)
    | .error err, _ => .error err
    | _, .error err => .error err

def subsRows : List (List Expr) → List String → List String → Res (List (List Expr))
  | [], _, _ => .ok []
  | r :: rs, find, repl =>
    match subsList r find repl, subsRows rs find repl with
    | .ok r2, .ok rs2 => .ok (r2 :: rs2)
    | .error err, _ => .error err
    | _, .error err => .error err

end

mutual

/-- `Interpreter::curry_expr` of interpreter.rs (fuelled): replaces every symbol
that is *not* in `symbols` and resolves to a `Value` entry of the interpreter's
environment by a `Literal` of that value; retained symbols and type-only
symbols stay; an undefined symbol panics; the nested function-literal case is
the source's `todo!()`, as is the trailing catch-all (matrices). -/
def curry_expr : ℕ → EnvV → Expr → List String → Res Expr
  | 0, _, _, _ => .error .fuel
  | fuel + 1, env, e, symbols =>
    match e with
    | .literal v => .ok (.literal v)
    | .symbol n =>
      match env.get n with
      | some (.value v) =>
        if symbols.contains n then .ok (.symbol n) else .ok (.literal v)
      | some (.type _) => .ok (.symbol n)
      | _ => .error (.interp ("Variable " ++ n ++ " is not defined"))
    | .group inner =>
      match curry_expr fuel env inner symbols with
      | .ok e2 => .ok (.group e2)
      | .error err => .error err
    | .unary op inner =>
      match curry_expr fuel env inner symbols with
      | .ok e2 => .ok (.unary op e2)
      | .error err => .error err
    | .binary l op r =>
      match curry_expr fuel env l symbols, curry_expr fuel env r symbols with
      | .ok l2, .ok r2 => .ok (.binary l2 op r2)
      | .error err, _ => .error err
      | _, .error err => .error err
    | .tupleE es =>
      match curry_list fuel env es symbols with
      | .ok es2 => .ok (.tupleE es2)
      | .error err => .error err
    | .setE es =>
      match curry_list fuel env es symbols with
      | .ok es2 => .ok (.setE es2)
      | .error err => .error err
    | .funcLit _ _ => .error .nyi
    | .call f args =>
      match curry_expr fuel env f symbols, curry_args fuel env args symbols with
      | .ok f2, .ok args2 => .ok (.call f2 args2)
      | .error err, _ => .error err
      | _, .error err => .error err
    | .matrix _ => .error .nyi
termination_by structural fuel _ _ _ => fuel

/-- Left-to-right currying of a list of subexpressions. -/
def curry_list : ℕ → EnvV → List Expr → List String → Res (List Expr)
  | 0, _, _, _ => .error .fuel
  | _ + 1, _, [], _ => .ok []
  | fuel + 1, env, e :: es, symbols =>
    match curry_expr fuel env e symbols, curry_list fuel env es symbols with
    | .ok e2, .ok es2 => .ok (e2 :: es2)
    | .error err, _ => .error err
    | _, .error err => .error err
termination_by structural fuel _ _ _ => fuel

/-- Currying of a call's argument list; `None` (elided) slots pass through. -/
def curry_args : ℕ → EnvV → List (Option Expr) → List String → Res (List (Option Expr))
  | 0, _, _, _ => .error .fuel
  | _ + 1, _, [], _ => .ok []
  | fuel + 1, env, none :: es, symbols =>
    match curry_args fuel env es symbols with
    | .ok es2 => .ok (none :: es2)
    | .error err => .error err
  | fuel + 1, env, some e :: es, symbols =>
    match curry_expr fuel env e symbols, curry_args fuel env es symbols with
    | .ok e2, .ok es2 => .ok (some e2 :: es2)
    | .error err, _ => .error err
    | _, .error err => .error err
termination_by structural fuel _ _ _ => fuel

end

/-- The argument-binding loop of `Func::call` (value.rs): each supplied argument
is membership-checked against the parameter's declared type in the closure's
captured environment (`SymStore::Type` is the only reachable shape — anything
else is the source's `unreachable!()`) and bound into the call scope; each
elided argument's parameter name is collected, and parameters beyond the
supplied argument list are appended to the collected names. -/
def bind_args (fenv : EnvV) :
    List String → List (Option Value) → EnvV → List String → Res (EnvV × List String)
  | names, [], callEnv, curried => .ok (callEnv, curried ++ names)
  | n :: names, some v :: args, callEnv, curried =>
    match fenv.get n with
    | some (.type ts) =>
      match ts.contains v with
      | .ok true => bind_args fenv names args (callEnv.insert_sym n v) curried
      | .ok false =>
        .error (.interp ("Parameter " ++ n ++ " belongs to " ++ ts.display ++
          " which does not contain " ++ v.display))
      | .error err => .error err
    | _ => .error .unreachable
  | n :: names, none :: args, callEnv, curried =>
    bind_args fenv names args callEnv (curried ++ [n])
  | [], _ :: _, _, _ => .error .unreachable

mutual

/-- `Interpreter::execute_expr` of interpreter.rs (fuelled).  Dispatch order and
behavior follow the source: literals, symbol lookup (must be a `Value` entry),
groups, unary (operator lifting over a function operand, else negation),
binary (function-function composition via `substitute_symbols`, one-sided
operator lifting, else the arithmetic tables), tuples, set literals (fresh
`Rc` allocation, elements deduplicated by the `HashSet`; no interning), function
literals (`Func::from_func_expr`: fresh child scope giving every parameter the
`Univ` type constraint), and calls. -/
def execute_expr : ℕ → EnvV → ℕ → Expr → Res (ℕ × Value)
  | 0, _, _, _ => .error .fuel
  | fuel + 1, env, st, e =>
    match e with
    | .literal lit =>
      match execute_literal lit with
      | .ok v => .ok (st, v)
      | .error err => .error err
    | .symbol n =>
      match env.get n with
      | some (.value v) => .ok (st, v)
      | _ => .error (.interp ("Variable " ++ n ++ " is not defined"))
    | .group inner => execute_expr fuel env st inner
    | .unary op inner =>
      match execute_expr fuel env st inner with
      | .error err => .error err
      | .ok (st1, right) =>
        match right with
        | .func (.mk fenv fargs fbody fcod) =>
          .ok (st1, .func (.mk fenv fargs (.unary op (.group fbody)) fcod))
        | _ =>
          match op with
          | .minus =>
            match execute_neg right with
            | .ok v => .ok (st1, v)
            | .error err => .error err
          | _ => .error .nyi
    | .binary le op re =>
      match execute_expr fuel env st le with
      | .error err => .error err
      | .ok (st1, l) =>
        match execute_expr fuel env st1 re with
        | .error err => .error err
        | .ok (st2, r) =>
          match l, r with
          | .func (.mk lenv largs lbody _), .func (.mk _ rargs rbody _) =>
            if largs.length = rargs.length then
              match substitute_symbols rbody rargs largs with
              | .error err => .error err
              | .ok newBody =>
                match env.get_set "Univ" with
                | some u =>
                  .ok (st2, .func (.mk lenv largs
                    (.binary (.group lbody) op (.group newBody)) u))
                | none => .error .unwrapNone
            else .error (.interp
              "Function shorthand can only be used with functions with the same arity.")
          | .func (.mk lenv largs lbody _), rv =>
            match env.get_set "Univ" with
            | some u =>
              .ok (st2, .func (.mk lenv largs (.binary (.group lbody) op (.literal rv)) u))
            | none => .error .unwrapNone
          | lv, .func (.mk renv rargs rbody _) =>
            match env.get_set "Univ" with
            | some u =>
              .ok (st2, .func (.mk renv rargs (.binary (.literal lv) op (.group rbody)) u))
            | none => .error .unwrapNone
          | lv, rv =>
            match (match op with
              | .plus => execute_sum lv rv
              | .minus => execute_diff lv rv
              | .star => execute_prod lv rv
              | .slash => execute_quot lv rv
              | .caret => execute_power lv rv) with
            | .ok v => .ok (st2, v)
            | .error err => .error err
    | .tupleE es =>
      match execute_list fuel env st es with
      | .ok (st1, vs) => .ok (st1, .tuple vs)
      | .error err => .error err
    | .setE es =>
      match execute_set_elems fuel env st es [] with
      | .ok (st1, vs) => .ok (st1 + 1, .setv st1 (.finite vs))
      | .error err => .error err
    | .funcLit params body =>
      match env.get_set "Univ" with
      | some u =>
        .ok (st, .func (.mk
          (.mk (params.foldl (fun syms p => scopeInsert p (.type u) syms) []) (some env))
          params body u))
      | none => .error .unwrapNone
    | .call fe args =>
      match execute_expr fuel env st fe with
      | .error err => .error err
      | .ok (st1, fv) =>
        match fv with
        | .func f =>
          match execute_args fuel env st1 args with
          | .ok (st2, argVals) => func_call fuel st2 f argVals
          | .error err => .error err
        | v => .error (.interp (v.display ++ " is not callable"))
    | .matrix _ => .error .nyi
termination_by structural fuel _ _ _ => fuel

/-- Left-to-right evaluation of a tuple literal's elements. -/
def execute_list : ℕ → EnvV → ℕ → List Expr → Res (ℕ × List Value)
  | 0, _, _, _ => .error .fuel
  | _ + 1, _, st, [] => .ok (st, [])
  | fuel + 1, env, st, e :: es =>
    match execute_expr fuel env st e with
    | .error err => .error err
    | .ok (st1, v) =>
      match execute_list fuel env st1 es with
      | .ok (st2, vs) => .ok (st2, v :: vs)
      | .error err => .error err
termination_by structural fuel _ _ _ => fuel

/-- `Interpreter::execute_set`'s loop: evaluate each element and `insert` it
into the `HashSet` (deduplicating by hash + `compare`). -/
def execute_set_elems : ℕ → EnvV → ℕ → List Expr → List Value → Res (ℕ × List Value)
  | 0, _, _, _, _ => .error .fuel
  | _ + 1, _, st, [], acc => .ok (st, acc)
  | fuel + 1, env, st, e :: es, acc =>
    match execute_expr fuel env st e with
    | .ok (st1, v) => execute_set_elems fuel env st1 es (Value.setInsert acc v)
    | .error err => .error err
termination_by structural fuel _ _ _ _ => fuel

/-- Left-to-right evaluation of a call's arguments; `None` marks an elided
position. -/
def execute_args : ℕ → EnvV → ℕ → List (Option Expr) → Res (ℕ × List (Option Value))
  | 0, _, _, _ => .error .fuel
  | _ + 1, _, st, [] => .ok (st, [])
  | fuel + 1, env, st, none :: rest =>
    match execute_args fuel env st rest with
    | .ok (st1, vs) => .ok (st1, none :: vs)
    | .error err => .error err
  | fuel + 1, env, st, some e :: rest =>
    match execute_expr fuel env st e with
    | .error err => .error err
    | .ok (st1, v) =>
      match execute_args fuel env st1 rest with
      | .ok (st2, vs) => .ok (st2, some v :: vs)
      | .error err => .error err
termination_by structural fuel _ _ _ => fuel

/-- `Func::call` of value.rs: errors when more arguments than parameters are
supplied; binds the supplied arguments into a clone of the captured environment
(type-checking each); if any parameter is unfilled, returns a **new** function
whose environment is the call scope, whose parameters are exactly the unfilled
names in order, and whose body is the `curry_expr` transform of the original
body over those names; otherwise evaluates the body in the call scope. -/
def func_call : ℕ → ℕ → FuncV → List (Option Value) → Res (ℕ × Value)
  | 0, _, _, _ => .error .fuel
  | fuel + 1, st, f, args =>
    if args.length > f.arity then .error (.interp "Too many arguments")
    else
      match bind_args f.env f.arg_names args f.env [] with
      | .error err => .error err
      | .ok (callEnv, curried) =>
        if curried.length > 0 then
          match curry_expr fuel callEnv f.expr curried with
          | .ok newBody => .ok (st, .func (.mk callEnv curried newBody f.codomain))
          | .error err => .error err
        else execute_expr fuel callEnv st f.expr
termination_by structural fuel _ _ _ => fuel

end

/-- The `SetPool` of set.rs: the pooled `Rc<CanonSet>`s, each with the
allocation id of the `Rc` it shares. -/
abbrev SetPool := List (ℕ × CanonSet)

/-- `SetPool::intern` of set.rs: inserts the set into the pool when no
structurally equal member is present — and returns its *argument* back out in
both cases (the source's `set` is returned verbatim; the pooled instance is
never handed back). -/
def SetPool.intern (pool : SetPool) (s : ℕ × CanonSet) : SetPool × (ℕ × CanonSet) :=
  if pool.any (fun q => CanonSet.structEq q.2 s.2) then (pool, s)
  else (pool ++ [s], s)

/-- The retyping loop of `Interpreter::execute_assign`'s function branch: each
declared parameter type is attached to the clone of the closure's environment
(`SetPool::intern` returns its argument — see `SetPool.intern` — so the
interning step is the identity on the stored set). -/
def attach_types (fenv : EnvV) (names : List String) (types : List CanonSet) : EnvV :=
  (names.zip types).foldl (fun e p => e.insert_sym_type p.1 p.2) fenv

/-- `Interpreter::execute_assign` of interpreter.rs: reassignment is checked
with `Env::is_sym_assigned` (the *current* scope only); the right-hand side is
evaluated; a function value is retyped against a previously declared
`FuncType` (arity-checked); a non-function value is membership-checked against
a previously declared `Type`; the result is inserted into the current scope. -/
def execute_assign (fuel : ℕ) (env : EnvV) (st : ℕ) (name : String) (right : Expr) :
    Res (ℕ × EnvV × Value) :=
  if env.is_sym_assigned name then
    .error (.interp ("Variable " ++ name ++ " cannot be reassigned"))
  else
    match execute_expr fuel env st right with
    | .error err => .error err
    | .ok (st1, v) =>
      match v with
      | .func f =>
        match env.get name with
        | some (.funcType argTypes _) =>
          if f.arity ≠ argTypes.length then
            .error (.interp ("Function " ++ name ++
              " was previously denoted to have a different number of arguments"))
          else
            let retyped : FuncV :=
              .mk (attach_types f.env f.arg_names argTypes) f.arg_names f.expr f.codomain
            .ok (st1, env.insert_sym name (.func retyped), .func retyped)
        | _ => .ok (st1, env.insert_sym name v, v)
      | _ =>
        match env.get name with
        | some (.type ts) =>
          match ts.contains v with
          | .ok true => .ok (st1, env.insert_sym name v, v)
          | .ok false =>
            .error (.interp (name ++ " is in " ++ ts.display ++
              " which does not contain " ++ v.display))
          | .error err => .error err
        | _ => .ok (st1, env.insert_sym name v, v)

/-- The global environment `Interpreter::new` builds: the seven primitive sets,
inserted in source order, each behind a freshly allocated `Rc` (ids 0–6) that is
also interned into the interpreter's pool. -/
def interpreter_new_env : EnvV :=
  .mk [("Univ", .value (.setv 0 (.infinite .univ))),
       ("Empty", .value (.setv 1 (.finite []))),
       ("Nat", .value (.setv 2 (.infinite .nat))),
       ("Int", .value (.setv 3 (.infinite .int))),
       ("Real", .value (.setv 4 (.infinite .real))),
       ("Complex", .value (.setv 5 (.infinite .complex))),
       ("Str", .value (.setv 6 (.infinite .str)))] none

/-- The body `x + y` of the example function `f(x, y) = x + y`. -/
def add_body : Expr := .binary (.symbol "x") .plus (.symbol "y")

/-- The closure `Func::from_func_expr` builds for `f(x, y) = x + y` under the
global environment: a fresh child scope giving `x` and `y` the `Univ`
constraint, the body expression, and codomain `Univ`. -/
def f_add : FuncV :=
  .mk (.mk [("x", .type (.infinite .univ)), ("y", .type (.infinite .univ))]
        (some interpreter_new_env))
      ["x", "y"] add_body (.infinite .univ)

/-- The unary closure `f(1, )` returns: its environment is the call scope
(`x` bound to `1`), its parameter list is the single unfilled name `y`, and its
body is the `curry_expr` transform of `x + y` retaining `y`. -/
def g_add : FuncV :=
  .mk (.mk [("x", .value (.int 1)), ("y", .type (.infinite .univ))]
        (some interpreter_new_env))
      ["y"] (.binary (.literal (.int 1)) .plus (.symbol "y")) (.infinite .univ)

/-- The set literal `{1, 2, 3}`. -/
def set123 : Expr := .setE [.literal (.int 1), .literal (.int 2), .literal (.int 3)]

/-- The ordered list of sub-expressions of an expression node (call arguments
keep only the supplied positions; matrices flatten row-major), used to address
occurrences inside an expression tree by a path of child indices. -/
def Expr.childList : Expr → List Expr
  | .literal _ => []
  | .symbol _ => []
  | .group e => [e]
  | .unary _ e => [e]
  | .binary l _ r => [l, r]
  | .call f args => f :: args.filterMap id
  | .funcLit _ body => [body]
  | .tupleE es => es
  | .matrix rows => rows.flatten
  | .setE es => es

/-- The sub-expression at a path of child indices (`none` when the path leaves
the tree); the device by which "this occurrence is left untouched" is stated. -/
def Expr.subtermAt : Expr → List ℕ → Option Expr
  | e, [] => some e
  | e, i :: p =>
    match e.childList[i]? with
    | some c => Expr.subtermAt c p
    | none => none

/-- C9: the claimed reflexivity of boolean value equality fails in the code:
`bool::compare` is `*self && *other_bool`, so `false` does not compare equal to
`false` — even though both hash identically and `impl Eq for dyn Val` (and the
`HashSet`s built over values) assume reflexivity; consequently the finite set
`{false}` does not contain `false`.  `true` compares equal to `true`. -/
theorem bool_compare_not_reflexive :
    Value.compare (.bool false) (.bool false) = false ∧
    Value.hash_val (.bool false) = Value.hash_val (.bool false) ∧
    CanonSet.contains (.finite [.bool false]) (.bool false) = .ok false ∧
    Value.compare (.bool true) (.bool true) = true := by
  refine ⟨?_, rfl, ?_, ?_⟩ <;> simp [Value.compare, CanonSet.contains, Value.mem]

/-- C5: cross-kind numeric equality and hashing are promotion-consistent: for
every integer `i`, the rational of value `i` and the complex with real part `i`
and zero imaginary part compare equal to `i` (both ways), and all three hash by
feeding the same promoted `Complex` form to the hasher. -/
theorem numeric_promotion_consistent (i : ℤ) :
    Value.compare (.rat (i : ℚ)) (.int i) = true ∧
    Value.compare (.int i) (.rat (i : ℚ)) = true ∧
    Value.compare (.cplx (i : ℚ) 0) (.int i) = true ∧
    Value.compare (.int i) (.cplx (i : ℚ) 0) = true ∧
    Value.hash_val (.int i) = Value.hash_val (.rat (i : ℚ)) ∧
    Value.hash_val (.int i) = Value.hash_val (.cplx (i : ℚ) 0) := by
  refine ⟨?_, ?_, ?_, ?_, ?_, ?_⟩ <;> simp [Value.compare, Value.hash_val]

/-- C10: integer division with a nonzero divisor returns the exact rational
quotient; a zero divisor is not guarded by any interpreter error branch — the
evaluation reaches the `num` library's `BigRational::new` constructor with a
zero denominator (`RtError.lib`), never an error of the interpreter's own
taxonomy (`RtError.interp`). -/
theorem quot_int_int_exact_or_lib_panic (a b : ℤ) :
    (b ≠ 0 → execute_quot (.int a) (.int b) = .ok (.rat ((a : ℚ) / (b : ℚ)))) ∧
    execute_quot (.int a) (.int 0) = .error (.lib "denominator == 0") ∧
    ∀ msg, execute_quot (.int a) (.int 0) ≠ .error (.interp msg) := by
  refine ⟨fun hb => ?_, ?_, fun msg h => ?_⟩
  · simp [execute_quot, Value.is_str, hb]
  · simp [execute_quot, Value.is_str]
  · simp [execute_quot, Value.is_str] at h

/-- Witness for `quot_int_int_exact_or_lib_panic` at `1 / 2`. -/
theorem quot_int_int_exact_or_lib_panic_witness :
    execute_quot (.int 1) (.int 2) = .ok (.rat ((1 : ℚ) / (2 : ℚ))) :=
  (quot_int_int_exact_or_lib_panic 1 2).1 (by decide)

/-- C8 counterexample: the curry transformation does not handle nested function
literals at all — `curry_expr` on an expression that is (or contains) a function
literal hits the source's `todo!()` and panics instead of producing a
transformed tree, for any retained-name set. -/
theorem curry_nested_func_literal_panics :
    curry_expr 2 interpreter_new_env (.funcLit ["y"] (.symbol "y")) ["x"] = .error .nyi ∧
    curry_expr 3 interpreter_new_env
      (.group (.funcLit ["y"] (.binary (.symbol "y") .plus (.symbol "x")))) ["x"] =
      .error .nyi := by
  exact ⟨rfl, rfl⟩

/-- C7 counterexample: `true + true` evaluates to the boolean XOR — the value
`false` — not to the integer `2` ({0,1}-image sum); `false` does not even
compare equal to `2`. -/
theorem bool_plus_bool_xor_counterexample :
    execute_sum (.bool true) (.bool true) = .ok (.bool false) ∧
    Value.compare (.bool false) (.int 2) = false := by
  refine ⟨rfl, ?_⟩
  simp [Value.compare]

/-- C7 amended: a boolean participates in addition and multiplication with an
Integer, Rational or Complex operand as the number `0`/`1` of that kind, but a
boolean paired with a boolean is computed logically: `+` is XOR and `*` is AND,
producing a boolean (so `true + true` is `false`, not `2`). -/
theorem bool_arith_zero_one_mixed_logical_pure (a b : Bool) (i : ℤ) (q : ℚ)
    (re im : ℚ) :
    execute_sum (.bool a) (.bool b) = .ok (.bool (xor a b)) ∧
    execute_prod (.bool a) (.bool b) = .ok (.bool (a && b)) ∧
    execute_sum (.bool a) (.int i) = .ok (.int (boolInt a + i)) ∧
    execute_sum (.int i) (.bool a) = .ok (.int (i + boolInt a)) ∧
    execute_sum (.bool a) (.rat q) = .ok (.rat ((boolInt a : ℚ) + q)) ∧
    execute_sum (.rat q) (.bool a) = .ok (.rat (q + (boolInt a : ℚ))) ∧
    execute_sum (.bool a) (.cplx re im) = .ok (.cplx ((boolInt a : ℚ) + re) im) ∧
    execute_sum (.cplx re im) (.bool a) = .ok (.cplx (re + (boolInt a : ℚ)) im) ∧
    execute_prod (.bool a) (.int i) = .ok (.int (boolInt a * i)) ∧
    execute_prod (.int i) (.bool a) = .ok (.int (i * boolInt a)) ∧
    execute_prod (.bool a) (.rat q) = .ok (.rat ((boolInt a : ℚ) * q)) ∧
    execute_prod (.rat q) (.bool a) = .ok (.rat (q * (boolInt a : ℚ))) ∧
    execute_prod (.bool a) (.cplx re im) =
      .ok (.cplx ((boolInt a : ℚ) * re) ((boolInt a : ℚ) * im)) ∧
    execute_prod (.cplx re im) (.bool a) =
      .ok (.cplx (re * (boolInt a : ℚ)) (im * (boolInt a : ℚ))) := by
  refine ⟨rfl, rfl, rfl, rfl, rfl, rfl, rfl, rfl, rfl, rfl, rfl, rfl, rfl, rfl⟩

/-- C6 counterexample: a negative exponent of magnitude `2^32` (two `u32`
digits) with integer base `2` is *not* an eagerly reported error — the code
approximates the result with `0` and returns it. -/
theorem power_overflow_approximated_counterexample :
    execute_power (.int 2) (.int (-(2 ^ 32))) = .ok (.int 0) := by
  have h1 : ((-(2 ^ 32) : ℤ) = 0) = False := by norm_num
  have h2 : (0 ≤ (-(2 ^ 32) : ℤ)) = False := by norm_num
  simp [execute_power, powIntInt, Value.is_str, h1, h2]

/-- C6 amended: `0^0` is a reported error for integer and rational bases (and
the whole complex-base branch is a reported not-yet-implemented failure); a
negative exponent over the zero base errors; an integer exponent whose
magnitude needs more than one 32-bit digit errors **eagerly only in the
branches where the result would grow without bound** (positive exponent with
`|base| > 1`, and the mirrored rational cases), while in the branches where the
true result would shrink toward zero the code returns the approximation `0`
instead of reporting an error. -/
theorem power_edge_cases (l e : ℤ) (hl : 1 < l) (he : 2 ^ 32 ≤ e) :
    execute_power (.int 0) (.int 0) = .error (.interp "Cannot raise 0 to the power of 0") ∧
    execute_power (.rat 0) (.int 0) = .error (.interp "Cannot raise 0 to the power of 0") ∧
    execute_power (.cplx 0 0) (.int 0) = .error .nyi ∧
    execute_power (.int 0) (.int (-e)) =
      .error (.interp "Base of negative exponent cannot be 0") ∧
    execute_power (.rat 0) (.int (-e)) =
      .error (.interp "Base of negative exponent cannot be 0") ∧
    execute_power (.int l) (.int e) = .error (.interp "Exponent is too large to compute") ∧
    execute_power (.int l) (.int (-e)) = .ok (.int 0) ∧
    execute_power (.rat (l : ℚ)) (.int e) =
      .error (.interp "Exponent is too large to compute") ∧
    execute_power (.rat (l : ℚ)) (.int (-e)) = .ok (.int 0) := by
  have he0 : (e = 0) = False := by simp; omega
  have hne : ((-e : ℤ) = 0) = False := by simp; omega
  have hpos : (0 ≤ e) = True := by simp; omega
  have hneg : (0 ≤ (-e : ℤ)) = False := by simp; omega
  have habs : (2 ^ 32 ≤ e.natAbs) = True := by simp; omega
  have habsn : (2 ^ 32 ≤ (-e : ℤ).natAbs) = True := by simp; omega
  have hl0 : (l = 0) = False := by simp; omega
  have hl1 : (l = 1) = False := by simp; omega
  have hql : (1 ≤ (l : ℚ)) = True := by simp; exact_mod_cast hl.le
  refine ⟨?_, ?_, ?_, ?_, ?_, ?_, ?_, ?_, ?_⟩ <;>
    simp [execute_power, powIntInt, powRatInt, Value.is_str, he0, hne, hpos, hneg,
      habs, habsn, hl0, hl1, hql] <;> omega

/-- Witness for `power_edge_cases` at base `2`, exponent `2^32`: the unbounded
branch errors while the shrinking branch returns `0`. -/
theorem power_edge_cases_witness :
    execute_power (.int 2) (.int (2 ^ 32)) =
      .error (.interp "Exponent is too large to compute") ∧
    execute_power (.int 2) (.int (-(2 ^ 32))) = .ok (.int 0) :=
  ⟨(power_edge_cases 2 (2 ^ 32) (by norm_num) (by norm_num)).2.2.2.2.2.1,
   (power_edge_cases 2 (2 ^ 32) (by norm_num) (by norm_num)).2.2.2.2.2.2.1⟩

/-- C2 counterexample: with `x = 5` held by the *parent* scope, evaluating
`x = 6` in a descendant scope does **not** report a reassignment error — the
check `Env::is_sym_assigned` consults only the current scope, so the assignment
succeeds and installs a local binding `x = 6` that shadows the parent's. -/
theorem reassignment_descendant_scope_counterexample :
    execute_assign 2 (.mk [] (some (.mk [("x", .value (.int 5))] none))) 0 "x"
        (.literal (.int 6)) =
      .ok (0, .mk [("x", .value (.int 6))]
        (some (.mk [("x", .value (.int 5))] none)), .int 6) := by
  rfl

/-- C2 amended: the single-assignment check covers only the current scope: when
the current scope already holds a `Value` for the name, `execute_assign` reports
the reassignment error (leaving every binding untouched); but when the name is
assigned only in an ancestor scope (and absent from the current scope's map),
the assignment *succeeds*, appends a shadowing binding to the current scope, and
leaves the ancestor scope — which retains its original value — unchanged. -/
theorem assignment_reassignment_scope_rules
    (fuel st st1 : ℕ) (env p : EnvV) (syms : List (String × SymStore))
    (name : String) (rhs : Expr) (w v : Value)
    (hassigned : env.is_sym_assigned name = true)
    (hlocal : syms.find? (fun q => q.1 = name) = none)
    (hparentval : p.get name = some (.value w))
    (hrhs : execute_expr fuel (.mk syms (some p)) st rhs = .ok (st1, v)) :
    execute_assign fuel env st name rhs =
      .error (.interp ("Variable " ++ name ++ " cannot be reassigned")) ∧
    execute_assign fuel (.mk syms (some p)) st name rhs =
      .ok (st1, .mk (syms ++ [(name, .value v)]) (some p), v) ∧
    (EnvV.mk (syms ++ [(name, .value v)]) (some p)).get name = some (.value v) ∧
    (EnvV.mk (syms ++ [(name, .value v)]) (some p)).parent = some p := by
  have hany : (syms.any (fun q => q.1 = name)) = false := by
    rw [List.any_eq_false]
    intro x hx
    have := List.find?_eq_none.mp hlocal x hx
    simpa using this
  have hnotassigned : (EnvV.mk syms (some p)).is_sym_assigned name = false := by
    simp [EnvV.is_sym_assigned, EnvV.symbols, hlocal]
  have hget : (EnvV.mk syms (some p)).get name = some (.value w) := by
    simp [EnvV.get, hlocal, hparentval]
  refine ⟨?_, ?_, ?_, rfl⟩
  · simp [execute_assign, hassigned]
  · cases v <;>
      simp [execute_assign, hnotassigned, hrhs, hget, EnvV.insert_sym, scopeInsert,
        hany, EnvV.symbols, EnvV.parent]
  · have hfind : ((syms ++ [(name, SymStore.value v)]).find? (fun q => q.1 = name)) =
        some (name, SymStore.value v) := by
      rw [List.find?_append, hlocal]
      simp
    simp [EnvV.get, hfind]

/-- Witness for `assignment_reassignment_scope_rules`: `x = 5` in the root
scope; re-assigning `x = 6` in the root errors, while assigning `x = 6` in a
fresh child scope succeeds and shadows. -/
theorem assignment_reassignment_scope_rules_witness :
    execute_assign 1 (.mk [("x", .value (.int 5))] none) 0 "x" (.literal (.int 6)) =
      .error (.interp ("Variable " ++ "x" ++ " cannot be reassigned")) ∧
    execute_assign 1 (.mk [] (some (.mk [("x", .value (.int 5))] none))) 0 "x"
        (.literal (.int 6)) =
      .ok (0, .mk [("x", .value (.int 6))]
        (some (.mk [("x", .value (.int 5))] none)), .int 6) := by
  have h := assignment_reassignment_scope_rules 1 0 0
    (.mk [("x", .value (.int 5))] none) (.mk [("x", .value (.int 5))] none) []
    "x" (.literal (.int 6)) (.int 5) (.int 6) (by rfl) (by rfl) (by rfl) (by rfl)
  exact ⟨h.1, by simpa using h.2.1⟩

/-- C4 counterexample: evaluating the set literal `{1, 2, 3}` twice in the same
interpreter yields canonical sets behind *distinct* `Rc` allocations (ids 0 and
1) — not reference-identical instances — because `Interpreter::execute_set`
never consults the pool; and `SetPool::intern`, given a set structurally equal
to a pooled one (id 0), returns its own argument (id 5), not the pooled
instance. -/
theorem set_literal_interning_counterexample :
    execute_expr 9 interpreter_new_env 0 set123 =
      .ok (1, .setv 0 (.finite [.int 1, .int 2, .int 3])) ∧
    execute_expr 9 interpreter_new_env 1 set123 =
      .ok (2, .setv 1 (.finite [.int 1, .int 2, .int 3])) ∧
    (0 : ℕ) ≠ 1 ∧
    SetPool.intern [(0, .finite [.int 1, .int 2, .int 3])]
        (5, .finite [.int 1, .int 2, .int 3]) =
      ([(0, .finite [.int 1, .int 2, .int 3])],
        (5, .finite [.int 1, .int 2, .int 3])) := by
  refine ⟨?_, ?_, by decide, ?_⟩ <;>
    simp [set123, execute_expr, execute_set_elems, execute_literal, Value.setInsert,
      Value.mem, Value.compare, SetPool.intern, CanonSet.structEq, Value.subsetCompare]

/-- C4 amended: `SetPool::intern` deduplicates the *pool* (a structurally new
set is inserted, a duplicate is not) but always returns its argument rather
than the pooled shared instance, and the set-literal evaluation path
(`execute_set`) never invokes interning at all — each evaluation allocates a
fresh `Rc` — so two evaluations of `{1,2,3}` yield structurally equal
(and order-independent: `{1,2,3} == {3,2,1}`) but not reference-identical
canonical sets. -/
theorem set_interning_pool_only (st : ℕ) (pool : SetPool) (s : ℕ × CanonSet) :
    execute_expr 9 interpreter_new_env st set123 =
      .ok (st + 1, .setv st (.finite [.int 1, .int 2, .int 3])) ∧
    (SetPool.intern pool s).2 = s ∧
    (pool.any (fun q => CanonSet.structEq q.2 s.2) = false →
      (SetPool.intern pool s).1 = pool ++ [s]) ∧
    (pool.any (fun q => CanonSet.structEq q.2 s.2) = true →
      (SetPool.intern pool s).1 = pool) ∧
    CanonSet.structEq (.finite [.int 1, .int 2, .int 3])
      (.finite [.int 3, .int 2, .int 1]) = true := by
  refine ⟨?_, ?_, fun h => ?_, fun h => ?_, ?_⟩
  · simp [set123, execute_expr, execute_set_elems, execute_literal, Value.setInsert,
      Value.mem, Value.compare]
  · rw [SetPool.intern]
    split <;> rfl
  · simp [SetPool.intern, h]
  · simp [SetPool.intern, h]
  · simp [CanonSet.structEq, Value.subsetCompare, Value.mem, Value.compare]

/-- Witness for `set_interning_pool_only`: an empty pool receives the set; a
pool already holding a structurally equal set (under a different id) is left
unchanged. -/
theorem set_interning_pool_only_witness :
    (SetPool.intern [] (0, .finite [])).1 = [(0, CanonSet.finite [])] ∧
    (SetPool.intern [(0, .finite [])] (7, .finite [])).1 = [(0, CanonSet.finite [])] :=
  ⟨(set_interning_pool_only 0 [] (0, .finite [])).2.2.1 (by rfl),
   (set_interning_pool_only 0 [(0, .finite [])] (7, .finite [])).2.2.2.1
     (by simp [CanonSet.structEq, Value.subsetCompare])⟩

/-- A rational is integral exactly when it is an integer cast. -/
theorem rat_integral_iff (q : ℚ) : q.den = 1 ↔ ∃ i : ℤ, q = (i : ℚ) := by
  constructor
  · intro h
    exact ⟨q.num, ((Rat.den_eq_one_iff q).mp h).symm⟩
  · rintro ⟨i, rfl⟩
    simp

/-- A rational is a non-negative integer exactly when it is a natural cast. -/
theorem rat_nat_iff (q : ℚ) : q.den = 1 ∧ 0 ≤ q ↔ ∃ n : ℕ, q = (n : ℚ) := by
  constructor
  · rintro ⟨hden, hpos⟩
    obtain ⟨i, rfl⟩ := (rat_integral_iff q).mp hden
    have h0 : 0 ≤ i := by exact_mod_cast hpos
    have h1 : (i.toNat : ℤ) = i := Int.toNat_of_nonneg h0
    refine ⟨i.toNat, ?_⟩
    rw [show ((i.toNat : ℕ) : ℚ) = ((i.toNat : ℤ) : ℚ) by push_cast; ring, h1]
  · rintro ⟨n, rfl⟩
    simp

/-- C3: membership in the infinite primitive sets is a boolean decided by
kind-and-range predicates (spec-modelled: the live body is `todo!()`):
`Nat` holds exactly the values comparing equal to some natural number, `Int`
those comparing equal to some integer, `Real` those comparing equal to some
rational (zero imaginary part), `Complex` exactly the numeric values, `Str`
exactly the text values; `CanonSet::contains` returns these as booleans; the
examples `5 ∈ Nat`, `-3 ∉ Nat`, `3/2 ∉ Nat` hold. -/
theorem infinite_primitive_membership :
    (∀ v, InfSet.contains .nat v = true ↔ ∃ n : ℕ, Value.compare v (.int (n : ℤ)) = true) ∧
    (∀ v, InfSet.contains .int v = true ↔ ∃ i : ℤ, Value.compare v (.int i) = true) ∧
    (∀ v, InfSet.contains .real v = true ↔ ∃ q : ℚ, Value.compare v (.rat q) = true) ∧
    (∀ v, InfSet.contains .complex v = v.is_num) ∧
    (∀ v, InfSet.contains .str v = true ↔ ∃ s, v = .str s) ∧
    (∀ s v, CanonSet.contains (.infinite s) v = .ok (s.contains v)) ∧
    (∀ v, InfSet.contains .univ v = true) ∧
    (∀ v, CanonSet.contains (.finite []) v = .ok false) ∧
    InfSet.contains .nat (.int 5) = true ∧
    InfSet.contains .nat (.int (-3)) = false ∧
    InfSet.contains .nat (.rat (3 / 2)) = false ∧
    InfSet.contains .int (.int (-3)) = true ∧
    InfSet.contains .int (.rat (3 / 2)) = false ∧
    InfSet.contains .real (.rat (3 / 2)) = true ∧
    InfSet.contains .real (.cplx 1 1) = false := by
  refine ⟨?_, ?_, ?_, ?_, ?_, ?_, ?_, ?_, by decide, by decide, ?_, by decide,
    ?_, by rfl, by decide⟩
  · intro v
    cases v with
    | int i =>
      simp only [InfSet.contains, Value.compare, decide_eq_true_eq]
      exact ⟨fun h => ⟨i.toNat, by omega⟩, fun ⟨n, hn⟩ => by omega⟩
    | rat q =>
      simp only [InfSet.contains, Value.compare, decide_eq_true_eq]
      simpa using rat_nat_iff q
    | cplx re im =>
      simp only [InfSet.contains, Value.compare, Bool.and_eq_true, decide_eq_true_eq]
      constructor
      · rintro ⟨him, hden, hpos⟩
        obtain ⟨n, hn⟩ := (rat_nat_iff re).mp ⟨hden, hpos⟩
        exact ⟨n, him, by simpa using hn⟩
      · rintro ⟨n, him, hre⟩
        have h2 := (rat_nat_iff re).mpr ⟨n, by simpa using hre⟩
        exact ⟨him, h2.1, h2.2⟩
    | str s => simp [InfSet.contains, Value.compare]
    | bool b => simp [InfSet.contains, Value.compare]
    | tuple xs => simp [InfSet.contains, Value.compare]
    | setv id cs => simp [InfSet.contains, Value.compare]
    | func f => simp [InfSet.contains, Value.compare]
  · intro v
    cases v with
    | int i =>
      simp only [InfSet.contains, Value.compare, decide_eq_true_eq]
      exact ⟨fun _ => ⟨i, rfl⟩, fun _ => trivial⟩
    | rat q =>
      simp only [InfSet.contains, Value.compare, decide_eq_true_eq]
      exact rat_integral_iff q
    | cplx re im =>
      simp only [InfSet.contains, Value.compare, Bool.and_eq_true, decide_eq_true_eq]
      constructor
      · rintro ⟨him, hden⟩
        obtain ⟨i, hi⟩ := (rat_integral_iff re).mp hden
        exact ⟨i, him, hi⟩
      · rintro ⟨i, him, hre⟩
        exact ⟨him, (rat_integral_iff re).mpr ⟨i, hre⟩⟩
    | str s => simp [InfSet.contains, Value.compare]
    | bool b => simp [InfSet.contains, Value.compare]
    | tuple xs => simp [InfSet.contains, Value.compare]
    | setv id cs => simp [InfSet.contains, Value.compare]
    | func f => simp [InfSet.contains, Value.compare]
  · intro v
    cases v with
    | int i =>
      simp only [InfSet.contains, Value.compare, decide_eq_true_eq]
      exact ⟨fun _ => ⟨(i : ℚ), rfl⟩, fun _ => trivial⟩
    | rat q =>
      simp only [InfSet.contains, Value.compare, decide_eq_true_eq]
      exact ⟨fun _ => ⟨q, rfl⟩, fun _ => trivial⟩
    | cplx re im =>
      simp only [InfSet.contains, Value.compare, Bool.and_eq_true, decide_eq_true_eq]
      exact ⟨fun him => ⟨re, him, rfl⟩, fun ⟨q, him, _⟩ => him⟩
    | str s => simp [InfSet.contains, Value.compare]
    | bool b => simp [InfSet.contains, Value.compare]
    | tuple xs => simp [InfSet.contains, Value.compare]
    | setv id cs => simp [InfSet.contains, Value.compare]
    | func f => simp [InfSet.contains, Value.compare]
  · intro v
    cases v <;> rfl
  · intro v
    cases v <;> simp [InfSet.contains]
  · intro s v
    rfl
  · intro v
    rfl
  · intro v
    simp [CanonSet.contains, Value.mem]
  · have : ((3 : ℚ) / 2).den = 2 := by norm_num
    simp [InfSet.contains, this]
  · have : ((3 : ℚ) / 2).den = 2 := by norm_num
    simp [InfSet.contains, this]

/-- C1: partial application round-trips with full application.  Evaluating the
function literal for `f(x, y) = x + y` under the global environment yields the
closure `f_add`; calling it as `f(1, )` (second argument elided) yields exactly
the unary closure `g_add`, whose environment is the call scope (`f`'s
environment with `x` bound to `1`), whose parameter list is exactly the
unfilled name `y`, and whose body is the `curry_expr` transform of `x + y`
retaining `y`; for every value `v`, `g(v)` computes the same result as
`f(1, v)`, and in particular `g(2) = 3 = f(1, 2)`. -/
theorem partial_application_round_trip :
    execute_expr 9 interpreter_new_env 0 (.funcLit ["x", "y"] add_body) =
      .ok (0, .func f_add) ∧
    func_call 9 0 f_add [some (.int 1), none] = .ok (0, .func g_add) ∧
    g_add.env = f_add.env.insert_sym "x" (.int 1) ∧
    g_add.arg_names = ["y"] ∧
    curry_expr 8 g_add.env add_body ["y"] = .ok g_add.expr ∧
    (∀ v, func_call 9 0 g_add [some v] = func_call 9 0 f_add [some (.int 1), some v]) ∧
    func_call 9 0 g_add [some (.int 2)] = .ok (0, .int 3) ∧
    func_call 9 0 f_add [some (.int 1), some (.int 2)] = .ok (0, .int 3) := by
  refine ⟨rfl, rfl, rfl, rfl, rfl, fun v => ?_, rfl, rfl⟩
  rcases v with i | q | ⟨re, im⟩ | s | b | xs | ⟨id, cs⟩ | ⟨e, a, b, c⟩ <;> rfl

/-- Elementwise consequence of a successful `subsList`. -/
theorem subsList_get (find repl : List String) :
    ∀ (es es2 : List Expr), subsList es find repl = .ok es2 →
      ∀ (k : ℕ) (c : Expr), es[k]? = some c →
        ∃ c2, substitute_symbols c find repl = .ok c2 ∧ es2[k]? = some c2 := by
  intro es
  induction es with
  | nil =>
    intro es2 h k c hk
    simp at hk
  | cons e rest ih =>
    intro es2 h k c hk
    rcases h1 : substitute_symbols e find repl with err | e2 <;>
      rcases h2 : subsList rest find repl with err2 | rest2 <;>
        simp [subsList, h1, h2] at h
    subst h
    cases k with
    | zero =>
      simp at hk
      subst hk
      exact ⟨e2, h1, by simp⟩
    | succ k =>
      simp at hk
      obtain ⟨c2, hc1, hc2⟩ := ih rest2 h2 k c hk
      exact ⟨c2, hc1, by simpa using hc2⟩

/-- Elementwise consequence of a successful `subsArgs` on the supplied
positions. -/
theorem subsArgs_filterMap_get (find repl : List String) :
    ∀ (args args2 : List (Option Expr)), subsArgs args find repl = .ok args2 →
      ∀ (k : ℕ) (c : Expr), (args.filterMap id)[k]? = some c →
        ∃ c2, substitute_symbols c find repl = .ok c2 ∧
          (args2.filterMap id)[k]? = some c2 := by
  intro args
  induction args with
  | nil =>
    intro args2 h k c hk
    simp at hk
  | cons a rest ih =>
    intro args2 h k c hk
    cases a with
    | none =>
      rcases h2 : subsArgs rest find repl with err2 | rest2 <;>
        simp [subsArgs, h2] at h
      subst h
      simp only [List.filterMap_cons] at hk ⊢
      exact ih rest2 h2 k c hk
    | some e =>
      rcases h1 : substitute_symbols e find repl with err | e2 <;>
        rcases h2 : subsArgs rest find repl with err2 | rest2 <;>
          simp [subsArgs, h1, h2] at h
      subst h
      simp only [List.filterMap_cons, id] at hk ⊢
      cases k with
      | zero =>
        simp at hk
        subst hk
        exact ⟨e2, h1, by simp⟩
      | succ k =>
        simp at hk
        obtain ⟨c2, hc1, hc2⟩ := ih rest2 h2 k c hk
        exact ⟨c2, hc1, by simpa using hc2⟩

/-- `subsList` distributes over append. -/
theorem subsList_append (find repl : List String) :
    ∀ (a b a2 b2 : List Expr), subsList a find repl = .ok a2 →
      subsList b find repl = .ok b2 → subsList (a ++ b) find repl = .ok (a2 ++ b2) := by
  intro a
  induction a with
  | nil =>
    intro b a2 b2 h1 h2
    simp [subsList] at h1
    subst h1
    simpa using h2
  | cons e rest ih =>
    intro b a2 b2 h1 h2
    rcases he : substitute_symbols e find repl with err | e2 <;>
      rcases hr : subsList rest find repl with err2 | rest2 <;>
        simp [subsList, he, hr] at h1
    subst h1
    simp [subsList, he, ih b rest2 b2 hr h2]

/-- A successful `subsRows` flattens to a successful `subsList`. -/
theorem subsRows_flatten (find repl : List String) :
    ∀ (rows rows2 : List (List Expr)), subsRows rows find repl = .ok rows2 →
      subsList rows.flatten find repl = .ok rows2.flatten := by
  intro rows
  induction rows with
  | nil =>
    intro rows2 h
    simp [subsRows] at h
    subst h
    simp [subsList]
  | cons r rs ih =>
    intro rows2 h
    rcases h1 : subsList r find repl with err | r2 <;>
      rcases h2 : subsRows rs find repl with err2 | rs2 <;>
        simp [subsRows, h1, h2] at h
    subst h
    simpa using subsList_append find repl r rs.flatten r2 rs2.flatten h1 (ih rs2 h2)

/-- A name rebound by a nested literal's parameters never survives the
funcLit filter of `substitute_symbols`. -/
theorem shadowed_not_in_filtered (n : String) (find repl params : List String)
    (hn : n ∈ params) :
    n ∉ (((find.zip repl).filter (fun p => ¬ params.contains p.1)).map Prod.fst) := by
  intro hmem
  obtain ⟨pair, hpair, hfst⟩ := List.mem_map.mp hmem
  have := (List.mem_filter.mp hpair).2
  rw [hfst] at this
  simp at this
  exact this (by simpa using hn)

/-- Occurrence preservation: renaming with a find-list that does not mention
`n` leaves every `Symbol n` occurrence (addressed by its path) in place. -/
theorem subs_preserves_symbolAt (n : String) :
    ∀ (path : List ℕ) (e e2 : Expr) (find repl : List String),
      n ∉ find →
      substitute_symbols e find repl = .ok e2 →
      e.subtermAt path = some (.symbol n) →
      e2.subtermAt path = some (.symbol n) := by
  intro path
  induction path with
  | nil =>
    intro e e2 find repl hn hsub hat
    simp [Expr.subtermAt] at hat
    subst hat
    have hfind : (find.zip repl).find? (fun p => p.1 = n) = none := by
      rw [List.find?_eq_none]
      intro x hx
      have := (List.of_mem_zip hx).1
      simp
      intro hxn
      exact hn (hxn ▸ this)
    simp [substitute_symbols, hfind] at hsub
    subst hsub
    rfl
  | cons i p ih =>
    intro e e2 find repl hn hsub hat
    cases e with
    | literal v => simp [Expr.subtermAt, Expr.childList] at hat
    | symbol m => simp [Expr.subtermAt, Expr.childList] at hat
    | group inner =>
      rcases h1 : substitute_symbols inner find repl with err | inner2 <;>
        simp [substitute_symbols, h1] at hsub
      subst hsub
      cases i with
      | zero =>
        simp [Expr.subtermAt, Expr.childList] at hat ⊢
        exact ih inner inner2 find repl hn h1 hat
      | succ i => simp [Expr.subtermAt, Expr.childList] at hat
    | unary op inner =>
      rcases h1 : substitute_symbols inner find repl with err | inner2 <;>
        simp [substitute_symbols, h1] at hsub
      subst hsub
      cases i with
      | zero =>
        simp [Expr.subtermAt, Expr.childList] at hat ⊢
        exact ih inner inner2 find repl hn h1 hat
      | succ i => simp [Expr.subtermAt, Expr.childList] at hat
    | binary l op r =>
      rcases h1 : substitute_symbols l find repl with err | l2 <;>
        rcases h2 : substitute_symbols r find repl with err2 | r2 <;>
          simp [substitute_symbols, h1, h2] at hsub
      subst hsub
      cases i with
      | zero =>
        simp [Expr.subtermAt, Expr.childList] at hat ⊢
        exact ih l l2 find repl hn h1 hat
      | succ i =>
        cases i with
        | zero =>
          simp [Expr.subtermAt, Expr.childList] at hat ⊢
          exact ih r r2 find repl hn h2 hat
        | succ i => simp [Expr.subtermAt, Expr.childList] at hat
    | call f args =>
      rcases h1 : substitute_symbols f find repl with err | f2 <;>
        rcases h2 : subsArgs args find repl with err2 | args2 <;>
          simp [substitute_symbols, h1, h2] at hsub
      subst hsub
      cases i with
      | zero =>
        simp [Expr.subtermAt, Expr.childList] at hat ⊢
        exact ih f f2 find repl hn h1 hat
      | succ i =>
        simp only [Expr.subtermAt, Expr.childList, List.getElem?_cons_succ] at hat ⊢
        rcases hc : (args.filterMap id)[i]? with _ | c
        · rw [hc] at hat
          simp at hat
        · rw [hc] at hat
          obtain ⟨c2, hc1, hc2⟩ := subsArgs_filterMap_get find repl args args2 h2 i c hc
          rw [hc2]
          exact ih c c2 find repl hn hc1 hat
    | funcLit params inner =>
      rcases h1 : substitute_symbols inner
          (((find.zip repl).filter (fun p => ¬ params.contains p.1)).map Prod.fst)
          (((find.zip repl).filter (fun p => ¬ params.contains p.1)).map Prod.snd)
        with err | inner2 <;> simp only [substitute_symbols, h1] at hsub
      · exact absurd hsub (by simp)
      · injection hsub with h2
        subst h2
        cases i with
        | zero =>
          simp [Expr.subtermAt, Expr.childList] at hat ⊢
          refine ih inner inner2 _ _ ?_ h1 hat
          intro hmem
          obtain ⟨pair, hpair, hfst⟩ := List.mem_map.mp hmem
          have hin := (List.of_mem_zip (List.mem_of_mem_filter hpair)).1
          rw [hfst] at hin
          exact hn hin
        | succ i => simp [Expr.subtermAt, Expr.childList] at hat
    | tupleE es =>
      rcases h1 : subsList es find repl with err | es2 <;>
        simp [substitute_symbols, h1] at hsub
      subst hsub
      simp only [Expr.subtermAt, Expr.childList] at hat ⊢
      rcases hc : es[i]? with _ | c
      · rw [hc] at hat
        simp at hat
      · rw [hc] at hat
        obtain ⟨c2, hc1, hc2⟩ := subsList_get find repl es es2 h1 i c hc
        rw [hc2]
        exact ih c c2 find repl hn hc1 hat
    | matrix rows =>
      rcases h1 : subsRows rows find repl with err | rows2 <;>
        simp [substitute_symbols, h1] at hsub
      subst hsub
      simp only [Expr.subtermAt, Expr.childList] at hat ⊢
      rcases hc : rows.flatten[i]? with _ | c
      · rw [hc] at hat
        simp at hat
      · rw [hc] at hat
        obtain ⟨c2, hc1, hc2⟩ := subsList_get find repl rows.flatten rows2.flatten
          (subsRows_flatten find repl rows rows2 h1) i c hc
        rw [hc2]
        exact ih c c2 find repl hn hc1 hat
    | setE es => simp [substitute_symbols] at hsub

/-- C8 amended: the `curry_expr` traversal does not respect shadowing — its
nested-function-literal case is `todo!()` and panics for every expression that
is a function literal; the sibling renaming traversal `substitute_symbols`
*does* respect shadowing: for a function literal whose parameter list rebinds
`n`, every occurrence of `n` inside the literal's body survives the renaming
unchanged, even when `n` is in the find-list. -/
theorem substitution_respects_shadowing
    (params : List String) (inner : Expr) (find repl : List String) (n : String)
    (out : Expr) (path : List ℕ)
    (hn : n ∈ params)
    (hsub : substitute_symbols (.funcLit params inner) find repl = .ok out)
    (hocc : inner.subtermAt path = some (.symbol n)) :
    out.subtermAt (0 :: path) = some (.symbol n) ∧
    (∀ fuel env ps body syms, curry_expr (fuel + 1) env (.funcLit ps body) syms =
      .error .nyi) := by
  refine ⟨?_, fun fuel env ps body syms => rfl⟩
  rcases h1 : substitute_symbols inner
      (((find.zip repl).filter (fun p => ¬ params.contains p.1)).map Prod.fst)
      (((find.zip repl).filter (fun p => ¬ params.contains p.1)).map Prod.snd)
    with err | inner2 <;> simp only [substitute_symbols, h1] at hsub
  · exact absurd hsub (by simp)
  · injection hsub with h2
    subst h2
    simp only [Expr.subtermAt, Expr.childList, List.getElem?_cons_zero]
    exact subs_preserves_symbolAt n path inner inner2 _ _
      (shadowed_not_in_filtered n find repl params hn) h1 hocc

/-- Witness for `substitution_respects_shadowing`: renaming `y ↦ a, x ↦ b`
through `y -> (y + x)` rewrites `x` but leaves the rebound `y` at its place
(path `[0, 0]`) untouched. -/
theorem substitution_respects_shadowing_witness :
    Expr.subtermAt (.funcLit ["y"] (.binary (.symbol "y") .plus (.symbol "b"))) [0, 0] =
      some (.symbol "y") :=
  (substitution_respects_shadowing ["y"] (.binary (.symbol "y") .plus (.symbol "x"))
    ["y", "x"] ["a", "b"] "y"
    (.funcLit ["y"] (.binary (.symbol "y") .plus (.symbol "b"))) [0]
    (by simp) (by simp [substitute_symbols]) (by rfl)).1

end MathLang
